import Mathlib

/-!
Verification of the goenc password-based encryption tool.

Bytes are modelled as natural numbers (values < 256); byte strings as
`List Nat`.  The Argon2id KDF and the XChaCha20-Poly1305 AEAD are external
library collaborators (golang.org/x/crypto); they are modelled as abstract
function parameters, with the library contract (ciphertext length =
plaintext length + 16-byte tag; open inverts seal) stated as hypotheses
where a theorem needs it.  The 40 random salt/nonce bytes are passed as
explicit arguments.  Everything else is translated from the Go source.
-/

namespace Goenc

/-- `binary.LittleEndian.PutUint32`: the four little-endian bytes of `x`. -/
def putUint32LE (x : Nat) : List Nat :=
  [x % 256, x / 2 ^ 8 % 256, x / 2 ^ 16 % 256, x / 2 ^ 24 % 256]

/-- `binary.LittleEndian.Uint32`: read a little-endian u32 from the first
four bytes of `b`. -/
def getUint32LE (b : List Nat) : Nat :=
  b.getD 0 0 + 2 ^ 8 * b.getD 1 0 + 2 ^ 16 * b.getD 2 0 + 2 ^ 24 * b.getD 3 0

/-- Abstract XChaCha20-Poly1305 AEAD (golang.org/x/crypto collaborator).
`seal key nonce plaintext ad` returns ciphertext plus tag; `opn` is `Open`:
`opn key nonce ciphertext ad` returns the plaintext or `none` on tag
verification failure. -/
structure AEAD where
  sealFn : List Nat → List Nat → List Nat → List Nat → List Nat
  openFn : List Nat → List Nat → List Nat → List Nat → Option (List Nat)

/-- Library contract: sealing appends the 16-byte Poly1305 tag. -/
def AEAD.sealLen (A : AEAD) : Prop :=
  ∀ k n pt ad, (A.sealFn k n pt ad).length = pt.length + 16

/-- Library contract: opening inverts sealing (AEAD correctness). -/
def AEAD.sealOpen (A : AEAD) : Prop :=
  ∀ k n pt ad, A.openFn k n (A.sealFn k n pt ad) ad = some pt

/-- Abstract Argon2id KDF (`argon2.IDKey` with 32-byte output):
arguments are password, salt, time, memory, threads. -/
def KDF : Type := List Nat → List Nat → Nat → Nat → Nat → List Nat

/-- Encryption parameters (`goenc.Options`).  `format` models the Go `int`
field (`FormatDefault = 0`, `FormatV1 = 1`); `time`/`memory` are `uint32`
and `threads` is `uint8` in Go, so faithful states have
`time < 2^32`, `memory < 2^32`, `threads < 256`. -/
structure Options where
  format : Int
  time : Nat
  memory : Nat
  threads : Nat

/-- Errors surfaced by `Encrypt`/`Decrypt`:
`unexpectedEOF` is `io.ErrUnexpectedEOF`, `errFormat` is `goenc.ErrFormat`,
`errInvalidTag` is `goenc.ErrInvalidTag`, `badFormatOpt` is the
`fmt.Errorf("opts.Format is invalid")` error in `Encrypt`. -/
inductive GoencErr where
  | unexpectedEOF
  | errFormat
  | errInvalidTag
  | badFormatOpt
deriving DecidableEq, Repr

/-- The 26-byte version-1 header: version byte `0x01`, time (LE u32),
memory (LE u32), threads (u8), 16-byte salt. -/
def headerV1 (opts : Options) (salt : List Nat) : List Nat :=
  0x01 :: (putUint32LE opts.time ++ putUint32LE opts.memory ++ opts.threads % 256 :: salt)

/-- `goenc.encryptV1`.  The Go function fills `buf[:50]` with header and
nonce and then returns `aead.Seal(buf[:50], nonce, plaintext, header)`,
i.e. header ++ nonce ++ ciphertext-with-tag.  The random salt and nonce
are explicit arguments here. -/
def encryptV1 (A : AEAD) (kdf : KDF) (password plaintext : List Nat)
    (opts : Options) (salt nonce : List Nat) : List Nat :=
  let header := headerV1 opts salt
  let key := kdf password salt opts.time opts.memory opts.threads
  header ++ nonce ++ A.sealFn key nonce plaintext header

/-- `goenc.Encrypt`: dispatch on `opts.Format`. -/
def Encrypt (A : AEAD) (kdf : KDF) (password plaintext : List Nat)
    (opts : Options) (salt nonce : List Nat) : Except GoencErr (List Nat) :=
  if opts.format = 0 ∨ opts.format = 1 then
    .ok (encryptV1 A kdf password plaintext opts salt nonce)
  else
    .error .badFormatOpt

/-- `goenc.decryptV1`. -/
def decryptV1 (A : AEAD) (kdf : KDF) (password input : List Nat) :
    Except GoencErr (List Nat) :=
  if input.length < 66 then .error .unexpectedEOF
  else if input.getD 0 0 ≠ 0x01 then .error .errFormat
  else
    let header := input.take 26
    let time := getUint32LE (header.drop 1)
    let memory := getUint32LE (header.drop 5)
    let threads := header.getD 9 0
    let salt := header.drop 10
    let nonce := (input.take 50).drop 26
    let ciphertext := input.drop 50
    let key := kdf password salt time memory threads
    match A.openFn key nonce ciphertext header with
    | some plaintext => .ok plaintext
    | none => .error .errInvalidTag

/-- `goenc.Decrypt`: dispatch on the version byte. -/
def Decrypt (A : AEAD) (kdf : KDF) (password input : List Nat) :
    Except GoencErr (List Nat) :=
  if input.length = 0 then .error .unexpectedEOF
  else if input.getD 0 0 = 0x01 then decryptV1 A kdf password input
  else .error .errFormat

theorem headerV1_length (opts : Options) (salt : List Nat)
    (hs : salt.length = 16) : (headerV1 opts salt).length = 26 := by
  simp [headerV1, putUint32LE, hs]

theorem headerV1_drop1 (opts : Options) (salt : List Nat) :
    (headerV1 opts salt).drop 1 =
      putUint32LE opts.time ++ (putUint32LE opts.memory ++ opts.threads % 256 :: salt) := by
  simp [headerV1]

theorem headerV1_drop5 (opts : Options) (salt : List Nat) :
    (headerV1 opts salt).drop 5 =
      putUint32LE opts.memory ++ opts.threads % 256 :: salt := by
  simp [headerV1, putUint32LE]

theorem headerV1_getD9 (opts : Options) (salt : List Nat) :
    (headerV1 opts salt).getD 9 0 = opts.threads % 256 := by
  simp [headerV1, putUint32LE, List.getD]

theorem headerV1_drop10 (opts : Options) (salt : List Nat) :
    (headerV1 opts salt).drop 10 = salt := by
  simp [headerV1, putUint32LE]

theorem headerV1_getD0 (opts : Options) (salt : List Nat) :
    (headerV1 opts salt).getD 0 0 = 0x01 := by
  simp [headerV1]

theorem getUint32LE_putUint32LE (x : Nat) (l : List Nat) :
    getUint32LE (putUint32LE x ++ l) = x % 2 ^ 32 := by
  simp only [getUint32LE, putUint32LE, List.cons_append, List.nil_append,
    List.getD_cons_zero, List.getD_cons_succ]
  omega

theorem container_take26 (opts : Options) (salt nonce ct : List Nat)
    (hs : salt.length = 16) :
    (headerV1 opts salt ++ nonce ++ ct).take 26 = headerV1 opts salt := by
  rw [List.append_assoc]
  exact List.take_left' (headerV1_length _ _ hs)

theorem container_take50 (opts : Options) (salt nonce ct : List Nat)
    (hs : salt.length = 16) (hn : nonce.length = 24) :
    (headerV1 opts salt ++ nonce ++ ct).take 50 = headerV1 opts salt ++ nonce :=
  List.take_left' (by simp [headerV1_length _ _ hs, hn])

theorem container_drop50 (opts : Options) (salt nonce ct : List Nat)
    (hs : salt.length = 16) (hn : nonce.length = 24) :
    (headerV1 opts salt ++ nonce ++ ct).drop 50 = ct :=
  List.drop_left' (by simp [headerV1_length _ _ hs, hn])

theorem container_length (opts : Options) (salt nonce ct : List Nat)
    (hs : salt.length = 16) (hn : nonce.length = 24) :
    (headerV1 opts salt ++ nonce ++ ct).length = 50 + ct.length := by
  simp [headerV1_length _ _ hs, hn]; omega

/-- Once the length and version checks pass, `decryptV1` calls the AEAD
with key derived from the parsed header fields, the nonce at bytes 26..49,
the ciphertext from byte 50 on, and the first 26 bytes as associated
data. -/
theorem decryptV1_parse (A : AEAD) (kdf : KDF) (password input : List Nat)
    (h66 : 66 ≤ input.length) (h0 : input.getD 0 0 = 0x01) :
    decryptV1 A kdf password input =
      match A.openFn
          (kdf password ((input.take 26).drop 10) (getUint32LE ((input.take 26).drop 1))
            (getUint32LE ((input.take 26).drop 5)) ((input.take 26).getD 9 0))
          ((input.take 50).drop 26) (input.drop 50) (input.take 26) with
      | some plaintext => .ok plaintext
      | none => .error .errInvalidTag := by
  rw [decryptV1, if_neg (by omega), if_neg (by rw [h0]; simp)]

/-- C1: for every password, plaintext, valid parameters and choice of the 40
random salt/nonce bytes, decryption inverts encryption (given the AEAD
library contract `sealLen`/`sealOpen`). -/
theorem decrypt_encrypt_roundtrip (A : AEAD) (kdf : KDF)
    (password M : List Nat) (opts : Options) (salt nonce : List Nat)
    (hA1 : A.sealLen) (hA2 : A.sealOpen)
    (hfmt : opts.format = 0 ∨ opts.format = 1)
    (htime : 1 ≤ opts.time) (hmem : 1 ≤ opts.memory) (hthr : 1 ≤ opts.threads)
    (htime32 : opts.time < 2 ^ 32) (hmem32 : opts.memory < 2 ^ 32)
    (hthr8 : opts.threads < 256)
    (hs : salt.length = 16) (hn : nonce.length = 24) :
    (Encrypt A kdf password M opts salt nonce).bind (Decrypt A kdf password) =
      .ok M := by
  have hEnc : Encrypt A kdf password M opts salt nonce =
      .ok (encryptV1 A kdf password M opts salt nonce) := by
    rw [Encrypt, if_pos hfmt]
  set key := kdf password salt opts.time opts.memory opts.threads with hkey
  set ct := A.sealFn key nonce M (headerV1 opts salt) with hct
  have hCeq : encryptV1 A kdf password M opts salt nonce =
      headerV1 opts salt ++ nonce ++ ct := rfl
  have hctlen : ct.length = M.length + 16 := hA1 _ _ _ _
  have hlen : (headerV1 opts salt ++ nonce ++ ct).length = 66 + M.length := by
    rw [container_length _ _ _ _ hs hn]; omega
  have h0 : (headerV1 opts salt ++ nonce ++ ct).getD 0 0 = 0x01 := by
    simp [headerV1]
  rw [hEnc, Except.bind, Decrypt, hCeq, if_neg (by omega), if_pos h0,
    decryptV1_parse _ _ _ _ (by omega) h0,
    container_take26 _ _ _ _ hs, container_take50 _ _ _ _ hs hn,
    container_drop50 _ _ _ _ hs hn,
    headerV1_drop10, headerV1_drop1, headerV1_drop5, headerV1_getD9,
    getUint32LE_putUint32LE, getUint32LE_putUint32LE,
    List.drop_left' (headerV1_length _ _ hs),
    Nat.mod_eq_of_lt htime32, Nat.mod_eq_of_lt hmem32,
    Nat.mod_eq_of_lt hthr8]
  rw [hct, hA2]

theorem container_drop1 (opts : Options) (salt nonce ct : List Nat) :
    (headerV1 opts salt ++ nonce ++ ct).drop 1 =
      putUint32LE opts.time ++
        (putUint32LE opts.memory ++ opts.threads % 256 :: (salt ++ nonce ++ ct)) := by
  simp [headerV1, List.append_assoc]

theorem container_drop1_take4 (opts : Options) (salt nonce ct : List Nat) :
    ((headerV1 opts salt ++ nonce ++ ct).drop 1).take 4 = putUint32LE opts.time := by
  rw [container_drop1]
  exact List.take_left' (by simp [putUint32LE])

theorem container_drop5_take4 (opts : Options) (salt nonce ct : List Nat) :
    ((headerV1 opts salt ++ nonce ++ ct).drop 5).take 4 = putUint32LE opts.memory := by
  rw [show (5 : Nat) = 1 + 4 from rfl, ← List.drop_drop, container_drop1,
    List.drop_left' (show (putUint32LE opts.time).length = 4 by simp [putUint32LE])]
  exact List.take_left' (by simp [putUint32LE])

theorem container_getD9 (opts : Options) (salt nonce ct : List Nat)
    (hs : salt.length = 16) :
    (headerV1 opts salt ++ nonce ++ ct).getD 9 0 = opts.threads % 256 := by
  rw [List.append_assoc]
  have h9 : 9 < (headerV1 opts salt).length := by
    rw [headerV1_length _ _ hs]; omega
  rw [List.getD_eq_getElem?_getD, List.getElem?_append_left h9,
    ← List.getD_eq_getElem?_getD, headerV1_getD9]

/-- C4: the container produced by `Encrypt` has length `66 + len(M)`,
version byte `0x01` at offset 0, the time parameter as a little-endian u32
at bytes 1..4, the memory parameter as a little-endian u32 at bytes 5..8,
and the threads parameter at byte 9. -/
theorem encrypt_output_layout (A : AEAD) (kdf : KDF) (password M : List Nat)
    (opts : Options) (salt nonce C : List Nat)
    (hA1 : A.sealLen)
    (htime : 1 ≤ opts.time) (hmem : 1 ≤ opts.memory) (hthr : 1 ≤ opts.threads)
    (hthr8 : opts.threads < 256)
    (hs : salt.length = 16) (hn : nonce.length = 24)
    (hC : Encrypt A kdf password M opts salt nonce = .ok C) :
    C.length = 66 + M.length ∧ C.getD 0 0 = 0x01 ∧
      (C.drop 1).take 4 = putUint32LE opts.time ∧
      (C.drop 5).take 4 = putUint32LE opts.memory ∧
      C.getD 9 0 = opts.threads := by
  rw [Encrypt] at hC
  split at hC
  case isFalse => exact absurd hC (by simp)
  case isTrue =>
    have hCe : C = headerV1 opts salt ++ nonce ++
        A.sealFn (kdf password salt opts.time opts.memory opts.threads) nonce M
          (headerV1 opts salt) := by
      have := hC
      simp only [Except.ok.injEq] at this
      rw [← this]; rfl
    subst hCe
    refine ⟨?_, by simp [headerV1], container_drop1_take4 _ _ _ _,
      container_drop5_take4 _ _ _ _, ?_⟩
    · rw [container_length _ _ _ _ hs hn, hA1]; omega
    · rw [container_getD9 _ _ _ _ hs, Nat.mod_eq_of_lt hthr8]

/-- Witness for C4: concrete trivial AEAD, password `[1]`, two-byte
plaintext. -/
theorem encrypt_output_layout_witness :
    let A : AEAD := ⟨fun _ _ pt _ => pt ++ List.replicate 16 0,
      fun _ _ c _ => some (c.take (c.length - 16))⟩
    let kdf : KDF := fun _ _ _ _ _ => List.replicate 32 0
    let C := encryptV1 A kdf [1] [2, 3] ⟨1, 8, 262144, 4⟩
      (List.replicate 16 7) (List.replicate 24 9)
    C.length = 68 ∧ C.getD 0 0 = 0x01 ∧
      (C.drop 1).take 4 = putUint32LE 8 ∧
      (C.drop 5).take 4 = putUint32LE 262144 ∧
      C.getD 9 0 = 4 :=
  encrypt_output_layout _ _ [1] [2, 3] ⟨1, 8, 262144, 4⟩ _ _ _
    (by intro k n pt ad; simp [AEAD.sealLen])
    (by decide) (by decide) (by decide) (by decide) (by decide) (by decide)
    rfl

/-- C3: `Decrypt` error discrimination on short or malformed inputs:
empty input and inputs starting with `0x01` but shorter than 66 bytes give
`io.ErrUnexpectedEOF`; non-empty inputs whose first byte is not `0x01` give
`ErrFormat`; in particular `[0x01, 0x02]` is truncated while `[0x00]` is a
format error. -/
theorem decrypt_short_input_errors (A : AEAD) (kdf : KDF) :
    (∀ password, Decrypt A kdf password [] = .error .unexpectedEOF) ∧
    (∀ password B, B.getD 0 0 = 0x01 → B.length < 66 →
      Decrypt A kdf password B = .error .unexpectedEOF) ∧
    (∀ password B, B ≠ [] → B.getD 0 0 ≠ 0x01 →
      Decrypt A kdf password B = .error .errFormat) ∧
    (∀ password, Decrypt A kdf password [0x01, 0x02] = .error .unexpectedEOF) ∧
    (∀ password, Decrypt A kdf password [0x00] = .error .errFormat) := by
  refine ⟨fun password => rfl, fun password B h0 hlen => ?_,
    fun password B hne h0 => ?_, fun password => ?_, fun password => rfl⟩
  · have hBne : B.length ≠ 0 := by
      intro h
      rw [List.length_eq_zero.mp h] at h0
      simp [List.getD] at h0
    rw [Decrypt, if_neg hBne, if_pos h0, decryptV1, if_pos hlen]
  · rw [Decrypt, if_neg (by simpa using hne), if_neg h0]
  · rw [Decrypt, if_neg (by simp), if_pos (by simp), decryptV1, if_pos (by simp)]

/-- Witness for C3: a concrete AEAD/KDF pair and concrete short inputs. -/
theorem decrypt_short_input_errors_witness :
    Decrypt ⟨fun _ _ pt _ => pt, fun _ _ c _ => some c⟩
        (fun _ _ _ _ _ => []) [] [0x01, 0x05] = .error .unexpectedEOF ∧
    Decrypt ⟨fun _ _ pt _ => pt, fun _ _ c _ => some c⟩
        (fun _ _ _ _ _ => []) [] [0x42] = .error .errFormat :=
  ⟨(decrypt_short_input_errors _ _).2.1 [] [0x01, 0x05] (by decide) (by decide),
   (decrypt_short_input_errors _ _).2.2.1 [] [0x42] (by decide) (by decide)⟩

/-- C5: the associated data given to the AEAD is exactly the first 26 bytes
of the container in both directions.  For encryption: the container equals
its own 26-byte prefix, then the nonce (bytes 26..49, not part of the AD),
then the AEAD output computed with that 26-byte prefix as associated data.
For decryption: `decryptV1` depends on the AEAD's open function only
through calls whose associated-data argument is `input.take 26`. -/
theorem aead_ad_is_first26 (A : AEAD) (kdf : KDF) (password M : List Nat)
    (opts : Options) (salt nonce : List Nat)
    (hs : salt.length = 16) (hn : nonce.length = 24) :
    (encryptV1 A kdf password M opts salt nonce =
      (encryptV1 A kdf password M opts salt nonce).take 26 ++ nonce ++
        A.sealFn (kdf password salt opts.time opts.memory opts.threads) nonce M
          ((encryptV1 A kdf password M opts salt nonce).take 26)) ∧
    ((encryptV1 A kdf password M opts salt nonce).take 26).length = 26 ∧
    ((encryptV1 A kdf password M opts salt nonce).take 50).drop 26 = nonce ∧
    (∀ input : List Nat, ∀ B : AEAD,
      (∀ k n c, B.openFn k n c (input.take 26) = A.openFn k n c (input.take 26)) →
      decryptV1 B kdf password input = decryptV1 A kdf password input) := by
  have htake : (encryptV1 A kdf password M opts salt nonce).take 26 =
      headerV1 opts salt := container_take26 _ _ _ _ hs
  refine ⟨by rw [htake]; rfl, by rw [htake, headerV1_length _ _ hs], ?_, ?_⟩
  · rw [show encryptV1 A kdf password M opts salt nonce =
        headerV1 opts salt ++ nonce ++
          A.sealFn (kdf password salt opts.time opts.memory opts.threads) nonce M
            (headerV1 opts salt) from rfl,
      container_take50 _ _ _ _ hs hn, List.drop_left' (headerV1_length _ _ hs)]
  · intro input B h
    simp only [decryptV1]
    rw [h]

/-- Witness for C5 at a concrete AEAD, KDF, salt and nonce. -/
theorem aead_ad_is_first26_witness :
    ((encryptV1 ⟨fun _ _ pt _ => pt ++ List.replicate 16 0,
        fun _ _ c _ => some (c.take (c.length - 16))⟩
      (fun _ _ _ _ _ => List.replicate 32 0) [1] [2, 3] ⟨1, 8, 262144, 4⟩
      (List.replicate 16 7) (List.replicate 24 9)).take 26).length = 26 :=
  (aead_ad_is_first26 _ _ [1] [2, 3] ⟨1, 8, 262144, 4⟩ _ _
    (by decide) (by decide)).2.1

/-- Flip bit `b` of the byte at offset `i`. -/
def flipBit (l : List Nat) (i b : Nat) : List Nat :=
  l.set i (l.getD i 0 ^^^ (1 <<< b))

theorem xor_shift_ne (x b : Nat) : x ^^^ (1 <<< b) ≠ x := by
  intro h
  have h0 : x ^^^ (1 <<< b) = x ^^^ 0 := by simpa using h
  have h1 := Nat.xor_right_inj.mp h0
  rw [Nat.shiftLeft_eq, one_mul] at h1
  exact absurd h1 (Nat.pos_iff_ne_zero.mp (Nat.two_pow_pos b))

theorem getD_take_lt (l : List Nat) (j n : Nat) (h : j < n) :
    (l.take n).getD j 0 = l.getD j 0 := by
  simp [List.getD_eq_getElem?_getD, List.getElem?_take_of_lt h]

theorem getD_drop (l : List Nat) (m k : Nat) :
    (l.drop m).getD k 0 = l.getD (m + k) 0 := by
  simp [List.getD_eq_getElem?_getD, List.getElem?_drop]

theorem getD_flipBit_self (l : List Nat) (i b : Nat) (hi : i < l.length) :
    (flipBit l i b).getD i 0 = l.getD i 0 ^^^ (1 <<< b) := by
  simp [flipBit, List.getD_eq_getElem?_getD, List.getElem?_set_self hi]

theorem getD_flipBit_ne (l : List Nat) (i b j : Nat) (hij : i ≠ j) :
    (flipBit l i b).getD j 0 = l.getD j 0 := by
  simp [flipBit, List.getD_eq_getElem?_getD, List.getElem?_set_ne hij]

/-- C2: flip any single bit of an `encryptV1` container at a byte offset
`i ≥ 10` (salt, nonce, ciphertext or tag region).  Unconditionally, the
(key, nonce, ciphertext, AD) tuple that `decryptV1` hands to the AEAD on
the tampered input differs from the tuple used for sealing; and whenever
the AEAD rejects that tampered tuple — the event that holds with
overwhelming probability for a real AEAD — `Decrypt` fails with exactly
`ErrInvalidTag` (never a format or truncation error). -/
theorem bitflip_invalid_tag (A : AEAD) (kdf : KDF) (password M : List Nat)
    (opts : Options) (salt nonce : List Nat) (i b : Nat)
    (hA1 : A.sealLen) (hs : salt.length = 16) (hn : nonce.length = 24)
    (hi10 : 10 ≤ i)
    (hilen : i < (encryptV1 A kdf password M opts salt nonce).length)
    (hopen : A.openFn
        (kdf password
          (((flipBit (encryptV1 A kdf password M opts salt nonce) i b).take 26).drop 10)
          (getUint32LE (((flipBit (encryptV1 A kdf password M opts salt nonce) i b).take 26).drop 1))
          (getUint32LE (((flipBit (encryptV1 A kdf password M opts salt nonce) i b).take 26).drop 5))
          (((flipBit (encryptV1 A kdf password M opts salt nonce) i b).take 26).getD 9 0))
        (((flipBit (encryptV1 A kdf password M opts salt nonce) i b).take 50).drop 26)
        ((flipBit (encryptV1 A kdf password M opts salt nonce) i b).drop 50)
        ((flipBit (encryptV1 A kdf password M opts salt nonce) i b).take 26) = none) :
    Decrypt A kdf password (flipBit (encryptV1 A kdf password M opts salt nonce) i b) =
      .error .errInvalidTag ∧
    (kdf password
        (((flipBit (encryptV1 A kdf password M opts salt nonce) i b).take 26).drop 10)
        (getUint32LE (((flipBit (encryptV1 A kdf password M opts salt nonce) i b).take 26).drop 1))
        (getUint32LE (((flipBit (encryptV1 A kdf password M opts salt nonce) i b).take 26).drop 5))
        (((flipBit (encryptV1 A kdf password M opts salt nonce) i b).take 26).getD 9 0),
      ((flipBit (encryptV1 A kdf password M opts salt nonce) i b).take 50).drop 26,
      (flipBit (encryptV1 A kdf password M opts salt nonce) i b).drop 50,
      (flipBit (encryptV1 A kdf password M opts salt nonce) i b).take 26) ≠
    (kdf password salt opts.time opts.memory opts.threads, nonce,
      A.sealFn (kdf password salt opts.time opts.memory opts.threads) nonce M
        (headerV1 opts salt),
      headerV1 opts salt) := by
  set C := encryptV1 A kdf password M opts salt nonce with hC
  set C' := flipBit C i b with hC'
  have hCu : C = headerV1 opts salt ++ nonce ++
      A.sealFn (kdf password salt opts.time opts.memory opts.threads) nonce M
        (headerV1 opts salt) := hC.trans rfl
  have hClen : C.length = 66 + M.length := by
    rw [hCu, container_length _ _ _ _ hs hn, hA1]; omega
  have hlen' : C'.length = C.length := by rw [hC']; simp [flipBit]
  have h66 : 66 ≤ C'.length := by omega
  have h0 : C'.getD 0 0 = 0x01 := by
    rw [hC', getD_flipBit_ne _ _ _ _ (by omega), hCu]
    simp [headerV1]
  have hflip : C'.getD i 0 = C.getD i 0 ^^^ (1 <<< b) :=
    getD_flipBit_self _ _ _ hilen
  constructor
  · rw [Decrypt, if_neg (by omega), if_pos h0, decryptV1_parse _ _ _ _ h66 h0,
      hopen]
  · intro htup
    have hAD : C'.take 26 = headerV1 opts salt := congrArg (·.2.2.2) htup
    have hNonce : (C'.take 50).drop 26 = nonce := congrArg (·.2.1) htup
    have hCT : C'.drop 50 =
        A.sealFn (kdf password salt opts.time opts.memory opts.threads) nonce M
          (headerV1 opts salt) := congrArg (·.2.2.1) htup
    rcases Nat.lt_or_ge i 26 with hi26 | hi26
    · -- the flip was inside the salt: the AD changed
      have e1 : (C'.take 26).getD i 0 = C'.getD i 0 := getD_take_lt _ _ _ hi26
      have e2 : (C.take 26).getD i 0 = C.getD i 0 := getD_take_lt _ _ _ hi26
      have e3 : C.take 26 = headerV1 opts salt := by
        rw [hCu]; exact container_take26 _ _ _ _ hs
      rw [hAD, ← e3, e2, hflip] at e1
      exact xor_shift_ne _ _ e1.symm
    · rcases Nat.lt_or_ge i 50 with hi50 | hi50
      · -- the flip was inside the nonce
        have e1 : ((C'.take 50).drop 26).getD (i - 26) 0 = C'.getD i 0 := by
          rw [getD_drop, getD_take_lt _ _ _ (by omega : 26 + (i - 26) < 50)]
          congr 1; omega
        have e2 : nonce = (C.take 50).drop 26 := by
          rw [hCu, container_take50 _ _ _ _ hs hn,
            List.drop_left' (headerV1_length _ _ hs)]
        have e3 : ((C.take 50).drop 26).getD (i - 26) 0 = C.getD i 0 := by
          rw [getD_drop, getD_take_lt _ _ _ (by omega : 26 + (i - 26) < 50)]
          congr 1; omega
        have e4 : nonce.getD (i - 26) 0 = C.getD i 0 := by rw [e2]; exact e3
        rw [hNonce, e4, hflip] at e1
        exact xor_shift_ne _ _ e1.symm
      · -- the flip was inside the ciphertext or tag
        have e1 : (C'.drop 50).getD (i - 50) 0 = C'.getD i 0 := by
          rw [getD_drop]; congr 1; omega
        have e2 : A.sealFn (kdf password salt opts.time opts.memory opts.threads)
            nonce M (headerV1 opts salt) = C.drop 50 := by
          rw [hCu, container_drop50 _ _ _ _ hs hn]
        have e3 : (C.drop 50).getD (i - 50) 0 = C.getD i 0 := by
          rw [getD_drop]; congr 1; omega
        have e4 : (A.sealFn (kdf password salt opts.time opts.memory opts.threads)
            nonce M (headerV1 opts salt)).getD (i - 50) 0 = C.getD i 0 := by
          rw [e2]; exact e3
        rw [hCT, e4, hflip] at e1
        exact xor_shift_ne _ _ e1.symm

/-- Witness for C2: a concrete AEAD whose open function rejects everything,
with the bit flip at offset 10 (first salt byte), bit 0. -/
theorem bitflip_invalid_tag_witness :
    Decrypt ⟨fun _ _ pt _ => pt ++ List.replicate 16 0, fun _ _ _ _ => none⟩
        (fun _ _ _ _ _ => List.replicate 32 0) []
        (flipBit (encryptV1 ⟨fun _ _ pt _ => pt ++ List.replicate 16 0,
            fun _ _ _ _ => none⟩
          (fun _ _ _ _ _ => List.replicate 32 0) [] [] ⟨1, 1, 1, 1⟩
          (List.replicate 16 0) (List.replicate 24 0)) 10 0) =
      .error .errInvalidTag :=
  (bitflip_invalid_tag _ _ [] [] ⟨1, 1, 1, 1⟩ _ _ 10 0
    (by intro k n pt ad; simp [AEAD.sealLen])
    (by decide) (by decide) (by decide) (by decide) rfl).1

/-- Witness for C1 at concrete inputs: a trivial AEAD instance satisfying
the library contract, password `[1]`, plaintext `[2,3]`. -/
theorem decrypt_encrypt_roundtrip_witness :
    (Encrypt ⟨fun _ _ pt _ => pt ++ List.replicate 16 0,
        fun _ _ c _ => some (c.take (c.length - 16))⟩
      (fun _ _ _ _ _ => List.replicate 32 0) [1] [2, 3] ⟨1, 8, 262144, 4⟩
      (List.replicate 16 7) (List.replicate 24 9)).bind
      (Decrypt ⟨fun _ _ pt _ => pt ++ List.replicate 16 0,
        fun _ _ c _ => some (c.take (c.length - 16))⟩
        (fun _ _ _ _ _ => List.replicate 32 0) [1]) = .ok [2, 3] :=
  decrypt_encrypt_roundtrip _ _ _ _ _ _ _
    (by intro k n pt ad; simp [AEAD.sealLen])
    (by intro k n pt ad; simp [AEAD.sealOpen])
    (Or.inr rfl) (by decide) (by decide) (by decide)
    (by norm_num) (by norm_num) (by decide) (by decide) (by decide)

end Goenc

namespace Prompt

/-!
The `prompt` package: token scanner, action mapper and line editor.
Bytes are `Nat` values < 256 as before.
-/

/-- Go `byte` subtraction `a - c` (wraparound mod 256), for `a < 256` and a
constant `c ≤ 256`. -/
def byteSub (a c : Nat) : Nat := (a + 256 - c) % 256

/-- `prompt.isHex`: `b-0x30 < 10 || ((b&0xdf)-0x41) < 6` in Go byte
arithmetic. -/
def isHex (b : Nat) : Bool := byteSub b 0x30 < 10 || byteSub (b &&& 0xdf) 0x41 < 6

/-- Length of the longest prefix of `l` of hex digits, capped at `k`
(the `for i < len(data) && i < maxlen && isHex(data[i])` loop). -/
def countHex : List Nat → Nat → Nat
  | _, 0 => 0
  | [], _ + 1 => 0
  | c :: rest, k + 1 => if isHex c then countHex rest k + 1 else 0

/-- CSI parameter byte test: `data[i]-0x30 <= 0x0f` (Go byte arithmetic),
i.e. `0x30..0x3f` for bytes. -/
def isCSIParam (c : Nat) : Bool := byteSub c 0x30 ≤ 0x0f

/-- CSI intermediate byte test: `data[i]-0x20 <= 0x0f`, i.e. `0x20..0x2f`. -/
def isCSIInter (c : Nat) : Bool := byteSub c 0x20 ≤ 0x0f

/-- CSI final byte test: `data[i]-0x40 <= 0x3e`, i.e. `0x40..0x7e`. -/
def isCSIFinal (c : Nat) : Bool := byteSub c 0x40 ≤ 0x3e

/-- SS3 final byte test: `data[2]-0x20 <= 0x5f`, i.e. `0x20..0x7f`. -/
def isSS3Final (c : Nat) : Bool := byteSub c 0x20 ≤ 0x5f

/-- Length of the longest prefix of `l` satisfying `p` (the CSI scanning
loops). -/
def countWhile (p : Nat → Bool) : List Nat → Nat
  | [] => 0
  | c :: rest => if p c then countWhile p rest + 1 else 0

/-- The `first`/`acceptRanges` tables of Go's `unicode/utf8`: for a leading
byte, the sequence size and the admissible range of the second byte. -/
def utf8SeqInfo (b0 : Nat) : Option (Nat × Nat × Nat) :=
  if 0xc2 ≤ b0 ∧ b0 ≤ 0xdf then some (2, 0x80, 0xbf)
  else if b0 = 0xe0 then some (3, 0xa0, 0xbf)
  else if 0xe1 ≤ b0 ∧ b0 ≤ 0xec then some (3, 0x80, 0xbf)
  else if b0 = 0xed then some (3, 0x80, 0x9f)
  else if 0xee ≤ b0 ∧ b0 ≤ 0xef then some (3, 0x80, 0xbf)
  else if b0 = 0xf0 then some (4, 0x90, 0xbf)
  else if 0xf1 ≤ b0 ∧ b0 ≤ 0xf3 then some (4, 0x80, 0xbf)
  else if b0 = 0xf4 then some (4, 0x80, 0x8f)
  else none

/-- The size component of Go's `utf8.DecodeRune`: 1 for ASCII, invalid or
incomplete input, else the sequence length 2..4 (`n < sz` is checked before
the continuation bytes, as in Go). -/
def utf8DecodeSize (data : List Nat) : Nat :=
  if data.length = 0 then 0
  else if data.getD 0 0 < 0x80 then 1
  else
    match utf8SeqInfo (data.getD 0 0) with
    | none => 1
    | some (sz, lo, hi) =>
      if data.length < sz then 1
      else if data.getD 1 0 < lo ∨ hi < data.getD 1 0 then 1
      else if sz = 2 then 2
      else if data.getD 2 0 < 0x80 ∨ 0xbf < data.getD 2 0 then 1
      else if sz = 3 then 3
      else if data.getD 3 0 < 0x80 ∨ 0xbf < data.getD 3 0 then 1
      else 4

/-- Quoted-insert `maxlen` per the second byte (`x`/`u`/`U`); 0 encodes the
`default` case of the Go switch. -/
def qiMaxlen (b1 : Nat) : Nat :=
  if b1 = 0x78 then 4 else if b1 = 0x75 then 6 else if b1 = 0x55 then 10 else 0

/-- Quoted-insert scan position after consuming hex digits: the final value
of `i` in the `for i < len(data) && i < maxlen && isHex(data[i])` loop. -/
def qiEnd (data : List Nat) (b1 : Nat) : Nat :=
  2 + countHex (data.drop 2) (qiMaxlen b1 - 2)

/-- Number of CSI parameter bytes consumed from index 2. -/
def csiParamsLen (data : List Nat) : Nat := countWhile isCSIParam (data.drop 2)

/-- Number of CSI intermediate bytes consumed after the parameter bytes. -/
def csiIntersLen (data : List Nat) : Nat :=
  countWhile isCSIInter ((data.drop 2).drop (csiParamsLen data))

/-- The index of the candidate CSI final byte: the value of `i` after the
two scanning loops. -/
def csiEnd (data : List Nat) : Nat := 2 + csiParamsLen data + csiIntersLen data

/-- `prompt.scanToken` (a `bufio.SplitFunc`): returns (advance, token).
The error result is omitted (every Go return path has a nil error), and the
leading empty-data guard covers `atEOF && len(data) == 0`; `bufio` never
calls the split function with empty data and `atEOF` false. -/
def scanToken (data : List Nat) (atEOF : Bool) : Nat × List Nat :=
  if data.length = 0 then (0, [])
  else if data.getD 0 0 = 0x16 then -- ^V, quoted insert
    if data.length = 1 then (if atEOF then (1, data.take 1) else (0, []))
    else if qiMaxlen (data.getD 1 0) = 0 then (1, data.take 1)
    else if qiEnd data (data.getD 1 0) = data.length ∧
        qiEnd data (data.getD 1 0) < qiMaxlen (data.getD 1 0) ∧
        atEOF = false then (0, [])
    else if qiEnd data (data.getD 1 0) = 2 then (1, data.take 1)
    else (qiEnd data (data.getD 1 0), data.take (qiEnd data (data.getD 1 0)))
  else if data.getD 0 0 = 0x1b then -- ESC
    if 3 ≤ data.length ∧ data.getD 1 0 = 0x5b then -- CSI
      if csiEnd data < data.length ∧ isCSIFinal (data.getD (csiEnd data) 0) then
        (csiEnd data + 1, data.take (csiEnd data + 1))
      else (1, data.take 1)
    else if 3 ≤ data.length ∧ data.getD 1 0 = 0x4f ∧ isSS3Final (data.getD 2 0) then
      (3, data.take 3) -- SS3
    else (1, data.take 1)
  else (utf8DecodeSize data, data.take (utf8DecodeSize data))

theorem utf8SeqInfo_sz (b0 sz lo hi : Nat)
    (h : utf8SeqInfo b0 = some (sz, lo, hi)) : sz = 2 ∨ sz = 3 ∨ sz = 4 := by
  unfold utf8SeqInfo at h
  split_ifs at h <;> simp_all

theorem utf8DecodeSize_pos (data : List Nat) (h : data ≠ []) :
    1 ≤ utf8DecodeSize data := by
  have h0 : ¬ data.length = 0 := by simpa using h
  rw [utf8DecodeSize, if_neg h0]
  by_cases h80 : data.getD 0 0 < 0x80
  · rw [if_pos h80]
  · rw [if_neg h80]
    rcases hseq : utf8SeqInfo (data.getD 0 0) with _ | ⟨sz, lo, hi⟩
    · simp
    · simp only
      split_ifs <;> omega

theorem utf8DecodeSize_le (data : List Nat) :
    utf8DecodeSize data ≤ data.length := by
  by_cases h0 : data.length = 0
  · simp [utf8DecodeSize, h0]
  · rw [utf8DecodeSize, if_neg h0]
    by_cases h80 : data.getD 0 0 < 0x80
    · rw [if_pos h80]; omega
    · rw [if_neg h80]
      rcases hseq : utf8SeqInfo (data.getD 0 0) with _ | ⟨sz, lo, hi⟩
      · simp; omega
      · have hsz := utf8SeqInfo_sz _ _ _ _ hseq
        simp only
        split_ifs <;> omega

theorem scanToken_pos (data : List Nat) (h : data ≠ []) :
    1 ≤ (scanToken data true).1 := by
  have h0 : ¬ data.length = 0 := by simpa using h
  rw [scanToken, if_neg h0]
  split_ifs
  all_goals
    first
      | exact utf8DecodeSize_pos data h
      | (simp_all [qiEnd]; try omega)

theorem scanToken_take (data : List Nat) (atEOF : Bool) :
    (scanToken data atEOF).2 = data.take (scanToken data atEOF).1 := by
  rw [scanToken]
  split_ifs <;> simp

/-- Repeatedly apply `scanToken` at EOF, collecting the tokens: the
`bufio.Scanner` loop once the reader is exhausted. -/
def scanAll (data : List Nat) : List (List Nat) :=
  if h : data = [] then []
  else
    (scanToken data true).2 :: scanAll (data.drop (scanToken data true).1)
termination_by data.length
decreasing_by
  have h1 := scanToken_pos data h
  have h2 : 0 < data.length := List.length_pos.mpr h
  simp only [List.length_drop]
  omega

theorem countHex_le (l : List Nat) (k : Nat) : countHex l k ≤ k := by
  induction l generalizing k with
  | nil => cases k <;> simp [countHex]
  | cons c rest ih =>
    cases k with
    | zero => simp [countHex]
    | succ k =>
      rw [countHex]
      split_ifs
      · have := ih k; omega
      · omega

theorem countHex_le_len (l : List Nat) (k : Nat) : countHex l k ≤ l.length := by
  induction l generalizing k with
  | nil => cases k <;> simp [countHex]
  | cons c rest ih =>
    cases k with
    | zero => simp [countHex]
    | succ k =>
      rw [countHex]
      split_ifs
      · have := ih k; simp; omega
      · simp

theorem countHex_hex (l : List Nat) (k : Nat) :
    ∀ d ∈ l.take (countHex l k), isHex d = true := by
  induction l generalizing k with
  | nil => simp
  | cons c rest ih =>
    cases k with
    | zero => simp [countHex]
    | succ k =>
      rw [countHex]
      split_ifs with hc
      · intro d hd
        rw [List.take_succ_cons] at hd
        rcases List.mem_cons.mp hd with h | h
        · rwa [h]
        · exact ih k d h
      · simp

theorem countWhile_le_len (p : Nat → Bool) (l : List Nat) :
    countWhile p l ≤ l.length := by
  induction l with
  | nil => simp [countWhile]
  | cons c rest ih =>
    rw [countWhile]
    split_ifs <;> simp <;> omega

theorem countWhile_sat (p : Nat → Bool) (l : List Nat) :
    ∀ c ∈ l.take (countWhile p l), p c = true := by
  induction l with
  | nil => simp
  | cons c rest ih =>
    rw [countWhile]
    split_ifs with hc
    · intro d hd
      rw [List.take_succ_cons] at hd
      rcases List.mem_cons.mp hd with h | h
      · rwa [h]
      · exact ih d h
    · simp

theorem getD_mem (l : List Nat) (i : Nat) (h : i < l.length) :
    l.getD i 0 ∈ l := by
  rw [List.getD_eq_getElem?_getD, List.getElem?_eq_getElem h]
  exact List.getElem_mem h

theorem take_one_eq (l : List Nat) (h : 1 ≤ l.length) :
    l.take 1 = [l.getD 0 0] := by
  match l, h with
  | a :: t, _ => rfl

theorem take_two_eq (l : List Nat) (h : 2 ≤ l.length) :
    l.take 2 = [l.getD 0 0, l.getD 1 0] := by
  match l, h with
  | a :: b :: t, _ => rfl

theorem take_three_eq (l : List Nat) (h : 3 ≤ l.length) :
    l.take 3 = [l.getD 0 0, l.getD 1 0, l.getD 2 0] := by
  match l with
  | a :: b :: c :: t => rfl
  | [] | [_] | [_, _] => simp at h

theorem take_four_eq (l : List Nat) (h : 4 ≤ l.length) :
    l.take 4 = [l.getD 0 0, l.getD 1 0, l.getD 2 0, l.getD 3 0] := by
  match l with
  | a :: b :: c :: d :: t => rfl
  | [] | [_] | [_, _] | [_, _, _] => simp at h

theorem take_one_drop (l : List Nat) (m : Nat) (h : m < l.length) :
    (l.drop m).take 1 = [l.getD m 0] := by
  rw [take_one_eq _ (by simp; omega), Goenc.getD_drop]
  simp

theorem isCSIParam_range (c : Nat) (hc : c < 256) (h : isCSIParam c = true) :
    0x30 ≤ c ∧ c ≤ 0x3f := by
  simp [isCSIParam, byteSub, decide_eq_true_eq] at h
  omega

theorem isCSIInter_range (c : Nat) (hc : c < 256) (h : isCSIInter c = true) :
    0x20 ≤ c ∧ c ≤ 0x2f := by
  simp [isCSIInter, byteSub, decide_eq_true_eq] at h
  omega

theorem isCSIFinal_range (c : Nat) (hc : c < 256) (h : isCSIFinal c = true) :
    0x40 ≤ c ∧ c ≤ 0x7e := by
  simp [isCSIFinal, byteSub, decide_eq_true_eq] at h
  omega

theorem isSS3Final_range (c : Nat) (hc : c < 256) (h : isSS3Final c = true) :
    0x20 ≤ c ∧ c ≤ 0x7f := by
  simp [isSS3Final, byteSub, decide_eq_true_eq] at h
  omega

/-- One UTF-8 scalar of 1..4 bytes, per the standard encoding tables
(ASCII, or a leading byte with admissible continuation bytes). -/
def isUTF8ScalarTok : List Nat → Prop
  | [b0] => b0 < 0x80
  | [b0, b1] => ∃ lo hi, utf8SeqInfo b0 = some (2, lo, hi) ∧ lo ≤ b1 ∧ b1 ≤ hi
  | [b0, b1, b2] => ∃ lo hi, utf8SeqInfo b0 = some (3, lo, hi) ∧ lo ≤ b1 ∧
      b1 ≤ hi ∧ 0x80 ≤ b2 ∧ b2 ≤ 0xbf
  | [b0, b1, b2, b3] => ∃ lo hi, utf8SeqInfo b0 = some (4, lo, hi) ∧ lo ≤ b1 ∧
      b1 ≤ hi ∧ 0x80 ≤ b2 ∧ b2 ≤ 0xbf ∧ 0x80 ≤ b3 ∧ b3 ≤ 0xbf
  | _ => False

/-- A single byte that is not valid UTF-8 on its own. -/
def isInvalidByteTok (t : List Nat) : Prop :=
  ∃ b, t = [b] ∧ 0x80 ≤ b ∧ b < 256

/-- A single C0 control byte or DEL. -/
def isC0DELTok (t : List Nat) : Prop :=
  ∃ b, t = [b] ∧ (b < 0x20 ∨ b = 0x7f)

/-- A full CSI escape sequence: `ESC [ P* I* F`. -/
def isCSITok (t : List Nat) : Prop :=
  ∃ params inters f, t = 0x1b :: 0x5b :: (params ++ inters ++ [f]) ∧
    (∀ c ∈ params, 0x30 ≤ c ∧ c ≤ 0x3f) ∧
    (∀ c ∈ inters, 0x20 ≤ c ∧ c ≤ 0x2f) ∧ 0x40 ≤ f ∧ f ≤ 0x7e

/-- An SS3 escape sequence: `ESC O X` with `X` in `0x20..0x7f`. -/
def isSS3Tok (t : List Nat) : Prop :=
  ∃ x, t = [0x1b, 0x4f, x] ∧ 0x20 ≤ x ∧ x ≤ 0x7f

/-- A quoted-insert escape: `^V` then `x`/`u`/`U` then 1..2/4/8 hex
digits. -/
def isQuotedTok (t : List Nat) : Prop :=
  ∃ c hex, t = 0x16 :: c :: hex ∧ hex ≠ [] ∧ (∀ d ∈ hex, isHex d = true) ∧
    ((c = 0x78 ∧ hex.length ≤ 2) ∨ (c = 0x75 ∧ hex.length ≤ 4) ∨
      (c = 0x55 ∧ hex.length ≤ 8))

/-- The token grammar of the scanner (spec section 4.2): one UTF-8 scalar or
single invalid byte, one C0/DEL byte, one CSI or SS3 escape sequence, or
one quoted-insert escape. -/
def TokenOK (t : List Nat) : Prop :=
  isUTF8ScalarTok t ∨ isInvalidByteTok t ∨ isC0DELTok t ∨ isCSITok t ∨
    isSS3Tok t ∨ isQuotedTok t

theorem tokenOK_single (b : Nat) (hb : b < 256) : TokenOK [b] := by
  by_cases h80 : b < 0x80
  · exact Or.inl (by simpa [isUTF8ScalarTok] using h80)
  · exact Or.inr (Or.inl ⟨b, rfl, by omega, hb⟩)

theorem quoted_shape (data : List Nat)
    (hlen2 : 2 ≤ data.length) (h16 : data.getD 0 0 = 0x16)
    (hm : ¬ qiMaxlen (data.getD 1 0) = 0)
    (hcnt : 1 ≤ countHex (data.drop 2) (qiMaxlen (data.getD 1 0) - 2)) :
    isQuotedTok (data.take (qiEnd data (data.getD 1 0))) := by
  set b1 := data.getD 1 0 with hb1def
  set k := countHex (data.drop 2) (qiMaxlen b1 - 2) with hk
  have hcle : k ≤ qiMaxlen b1 - 2 := by rw [hk]; exact countHex_le _ _
  have hclen : k ≤ (data.drop 2).length := by rw [hk]; exact countHex_le_len _ _
  have hlt : ((data.drop 2).take k).length ≤ k := by
    rw [List.length_take]; omega
  have hb1v : b1 = 0x78 ∨ b1 = 0x75 ∨ b1 = 0x55 := by
    by_contra hcon
    push_neg at hcon
    exact hm (by unfold qiMaxlen; rw [if_neg hcon.1, if_neg hcon.2.1,
      if_neg hcon.2.2])
  refine ⟨b1, (data.drop 2).take k, ?_, ?_, ?_, ?_⟩
  · rw [qiEnd, ← hk, List.take_add, take_two_eq data hlen2, h16]
    rfl
  · intro hemp
    have hl0 := congrArg List.length hemp
    rw [List.length_take] at hl0
    simp only [List.length_nil] at hl0
    omega
  · rw [hk]
    exact countHex_hex _ _
  · rcases hb1v with h | h | h
    · refine Or.inl ⟨h, ?_⟩
      rw [h] at hcle
      have e : qiMaxlen 0x78 = 4 := rfl
      omega
    · refine Or.inr (Or.inl ⟨h, ?_⟩)
      rw [h] at hcle
      have e : qiMaxlen 0x75 = 6 := rfl
      omega
    · refine Or.inr (Or.inr ⟨h, ?_⟩)
      rw [h] at hcle
      have e : qiMaxlen 0x55 = 10 := rfl
      omega

theorem csi_shape (data : List Nat) (hB : ∀ x ∈ data, x < 256)
    (h1b : data.getD 0 0 = 0x1b) (hbr : data.getD 1 0 = 0x5b)
    (hlen : 3 ≤ data.length)
    (hend : csiEnd data < data.length)
    (hfin : isCSIFinal (data.getD (csiEnd data) 0) = true) :
    isCSITok (data.take (csiEnd data + 1)) := by
  have hfval : data.getD (csiEnd data) 0 < 256 := hB _ (getD_mem _ _ hend)
  have hfr := isCSIFinal_range _ hfval hfin
  refine ⟨(data.drop 2).take (csiParamsLen data),
    ((data.drop 2).drop (csiParamsLen data)).take (csiIntersLen data),
    data.getD (csiEnd data) 0, ?_, ?_, ?_, hfr.1, hfr.2⟩
  · have h1 : csiEnd data + 1 =
        2 + (csiParamsLen data + (csiIntersLen data + 1)) := by
      rw [csiEnd]; omega
    have h3 : ((data.drop 2).drop (csiParamsLen data)).drop (csiIntersLen data) =
        data.drop (csiEnd data) := by
      rw [List.drop_drop, List.drop_drop]
      congr 1
      rw [csiEnd]
      omega
    rw [h1, List.take_add, List.take_add, List.take_add, h3,
      take_one_drop data (csiEnd data) hend, take_two_eq data (by omega),
      h1b, hbr]
    simp [List.append_assoc]
  · intro c hc
    exact isCSIParam_range c
      (hB c (List.mem_of_mem_drop (List.mem_of_mem_take hc)))
      (countWhile_sat isCSIParam (data.drop 2) c hc)
  · intro c hc
    exact isCSIInter_range c
      (hB c (List.mem_of_mem_drop (List.mem_of_mem_drop
        (List.mem_of_mem_take hc))))
      (countWhile_sat isCSIInter ((data.drop 2).drop (csiParamsLen data)) c hc)

theorem ss3_shape (data : List Nat) (hB : ∀ x ∈ data, x < 256)
    (h1b : data.getD 0 0 = 0x1b) (hO : data.getD 1 0 = 0x4f)
    (hlen : 3 ≤ data.length) (hx : isSS3Final (data.getD 2 0) = true) :
    isSS3Tok (data.take 3) := by
  have hmem : data.getD 2 0 < 256 := hB _ (getD_mem _ _ (by omega))
  refine ⟨data.getD 2 0, ?_, ?_, ?_⟩
  · rw [take_three_eq data hlen, h1b, hO]
  · exact (isSS3Final_range _ hmem hx).1
  · exact (isSS3Final_range _ hmem hx).2

theorem utf8_shape (data : List Nat) (hne : data ≠ [])
    (hB : ∀ x ∈ data, x < 256) :
    TokenOK (data.take (utf8DecodeSize data)) := by
  have h0 : ¬ data.length = 0 := by simpa using hne
  have hb0lt : data.getD 0 0 < 256 := hB _ (getD_mem _ _ (by omega))
  rw [utf8DecodeSize, if_neg h0]
  by_cases h80 : data.getD 0 0 < 0x80
  · rw [if_pos h80, take_one_eq _ (by omega)]
    exact tokenOK_single _ hb0lt
  · rw [if_neg h80]
    rcases hseq : utf8SeqInfo (data.getD 0 0) with _ | ⟨sz, lo, hi⟩
    · simp only
      rw [take_one_eq _ (by omega)]
      exact tokenOK_single _ hb0lt
    · simp only
      have hsz := utf8SeqInfo_sz _ _ _ _ hseq
      split_ifs with hL hb1 hsz2 hb2 hsz3 hb3
      · rw [take_one_eq _ (by omega)]; exact tokenOK_single _ hb0lt
      · rw [take_one_eq _ (by omega)]; exact tokenOK_single _ hb0lt
      · rw [take_two_eq _ (by omega)]
        refine Or.inl ?_
        show ∃ lo' hi', _
        exact ⟨lo, hi, by rw [← hsz2]; exact hseq, by omega, by omega⟩
      · rw [take_one_eq _ (by omega)]; exact tokenOK_single _ hb0lt
      · rw [take_three_eq _ (by omega)]
        refine Or.inl ?_
        show ∃ lo' hi', _
        exact ⟨lo, hi, by rw [← hsz3]; exact hseq, by omega, by omega, by omega,
          by omega⟩
      · rw [take_one_eq _ (by omega)]; exact tokenOK_single _ hb0lt
      · have hsz4 : sz = 4 := by omega
        rw [take_four_eq _ (by omega)]
        refine Or.inl ?_
        show ∃ lo' hi', _
        exact ⟨lo, hi, by rw [← hsz4]; exact hseq, by omega, by omega, by omega,
          by omega, by omega, by omega⟩

theorem scanToken_shape (data : List Nat) (hB : ∀ x ∈ data, x < 256)
    (hne : data ≠ []) : TokenOK (scanToken data true).2 := by
  have h0 : ¬ data.length = 0 := by simpa using hne
  have hb0lt : data.getD 0 0 < 256 := hB _ (getD_mem _ _ (by omega))
  rw [scanToken, if_neg h0]
  by_cases h16 : data.getD 0 0 = 0x16
  · rw [if_pos h16]
    by_cases hl1 : data.length = 1
    · rw [if_pos hl1, if_pos rfl]
      rw [take_one_eq _ (by omega), h16]
      exact tokenOK_single _ (by omega)
    · rw [if_neg hl1]
      by_cases hm : qiMaxlen (data.getD 1 0) = 0
      · rw [if_pos hm, take_one_eq _ (by omega), h16]
        exact tokenOK_single _ (by omega)
      · rw [if_neg hm, if_neg (by simp)]
        by_cases h2 : qiEnd data (data.getD 1 0) = 2
        · rw [if_pos h2, take_one_eq _ (by omega), h16]
          exact tokenOK_single _ (by omega)
        · rw [if_neg h2]
          have hcnt : 1 ≤ countHex (data.drop 2) (qiMaxlen (data.getD 1 0) - 2) := by
            rw [qiEnd] at h2; omega
          exact Or.inr (Or.inr (Or.inr (Or.inr (Or.inr
            (quoted_shape data (by omega) h16 hm hcnt)))))
  · rw [if_neg h16]
    by_cases h1b : data.getD 0 0 = 0x1b
    · rw [if_pos h1b]
      by_cases hcsi : 3 ≤ data.length ∧ data.getD 1 0 = 0x5b
      · rw [if_pos hcsi]
        by_cases hfin : csiEnd data < data.length ∧
            isCSIFinal (data.getD (csiEnd data) 0) = true
        · rw [if_pos hfin]
          exact Or.inr (Or.inr (Or.inr (Or.inl
            (csi_shape data hB h1b hcsi.2 hcsi.1 hfin.1 hfin.2))))
        · rw [if_neg hfin, take_one_eq _ (by omega), h1b]
          exact tokenOK_single _ (by omega)
      · rw [if_neg hcsi]
        by_cases hss3 : 3 ≤ data.length ∧ data.getD 1 0 = 0x4f ∧
            isSS3Final (data.getD 2 0) = true
        · rw [if_pos hss3]
          exact Or.inr (Or.inr (Or.inr (Or.inr (Or.inl
            (ss3_shape data hB h1b hss3.2.1 hss3.1 hss3.2.2)))))
        · rw [if_neg hss3, take_one_eq _ (by omega), h1b]
          exact tokenOK_single _ (by omega)
    · rw [if_neg h1b]
      exact utf8_shape data hne hB

theorem scanAll_flatten_fuel (n : Nat) :
    ∀ S : List Nat, S.length ≤ n → (scanAll S).flatten = S := by
  induction n with
  | zero =>
    intro S hS
    have hS0 : S = [] := List.length_eq_zero.mp (by omega)
    subst hS0
    rw [scanAll]
    simp
  | succ n ih =>
    intro S hS
    by_cases hS0 : S = []
    · subst hS0; rw [scanAll]; simp
    · rw [scanAll, dif_neg hS0, List.flatten_cons, scanToken_take]
      have hpos := scanToken_pos S hS0
      have hlen : (S.drop (scanToken S true).1).length ≤ n := by
        have := List.length_pos.mpr hS0
        simp only [List.length_drop]
        omega
      rw [ih _ hlen, List.take_append_drop]

theorem scanAll_flatten (S : List Nat) : (scanAll S).flatten = S :=
  scanAll_flatten_fuel S.length S (Nat.le_refl _)

theorem scanAll_shape_fuel (n : Nat) :
    ∀ S : List Nat, S.length ≤ n → (∀ x ∈ S, x < 256) →
      ∀ t ∈ scanAll S, TokenOK t := by
  induction n with
  | zero =>
    intro S hS hB t ht
    have hS0 : S = [] := List.length_eq_zero.mp (by omega)
    subst hS0
    rw [scanAll] at ht
    simp at ht
  | succ n ih =>
    intro S hS hB t ht
    by_cases hS0 : S = []
    · subst hS0; rw [scanAll] at ht; simp at ht
    · rw [scanAll, dif_neg hS0] at ht
      rcases List.mem_cons.mp ht with h | h
      · rw [h]
        exact scanToken_shape S hB hS0
      · have hpos := scanToken_pos S hS0
        have hlen : (S.drop (scanToken S true).1).length ≤ n := by
          have := List.length_pos.mpr hS0
          simp only [List.length_drop]
          omega
        exact ih _ hlen (fun x hx => hB x (List.mem_of_mem_drop hx)) t h

/-- C6: with `atEOF = true`, every non-empty input makes `scanToken`
consume at least one byte (so repeated scanning terminates and never
reports "need more data" or an error), and the resulting token stream
concatenates back to the input, with every token matching the lexical
grammar (UTF-8 scalar or single invalid byte, C0/DEL byte, CSI or SS3
escape, or quoted-insert escape). -/
theorem scanToken_total_partition (S : List Nat) (hB : ∀ x ∈ S, x < 256) :
    (∀ data : List Nat, data ≠ [] → 1 ≤ (scanToken data true).1) ∧
    (scanAll S).flatten = S ∧
    (∀ t ∈ scanAll S, TokenOK t) :=
  ⟨fun data hd => scanToken_pos data hd, scanAll_flatten S,
    scanAll_shape_fuel S.length S (Nat.le_refl _) hB⟩

/-- Witness for C6 on a concrete byte string mixing ASCII, a CSI arrow
key, an invalid byte, a quoted-insert escape and a truncated ESC. -/
theorem scanToken_total_partition_witness :
    (scanAll [0x48, 0x1b, 0x5b, 0x44, 0xff, 0x16, 0x78, 0x34, 0x31,
      0xe3, 0x81, 0x82, 0x1b]).flatten =
      [0x48, 0x1b, 0x5b, 0x44, 0xff, 0x16, 0x78, 0x34, 0x31,
        0xe3, 0x81, 0x82, 0x1b] :=
  (scanToken_total_partition _ (by decide)).2.1

/-!
The line editor (`prompt.readLine`).  The model covers the buffer, caret
and paste-mode state and the returned value; the bytes written to the
terminal (display transforms, redraw sequences) are write-only output with
their own error path and are not modelled — the loop below corresponds to
a session whose terminal writes succeed.
-/

/-- The `action` enumeration of the prompt package. -/
inductive Action where
  | actInsertChar
  | actQuotedInsert
  | actIgnore
  | actAccept
  | actSIGINT
  | actSIGQUIT
  | actBeginningOfLine
  | actEndOfLine
  | actBackwardChar
  | actForwardChar
  | actDeleteBackwardChar
  | actDeleteForwardChar
  | actKillLine
  | actKillWholeLine
  | actRefresh
  | actPasteStart
  | actPasteEnd
deriving DecidableEq, Repr

/-- `prompt.tokenToAction` for the non-Windows build (`^\` maps to SIGQUIT;
on Windows it would map to `Ignore`).  An empty token cannot be produced by
the scanner; it falls into the `default` case here. -/
def tokenToAction (token : List Nat) (inPaste : Bool) : Action :=
  if inPaste then
    if token = [0x1b, 0x5b, 0x32, 0x30, 0x31, 0x7e] then .actPasteEnd
    else .actInsertChar
  else if 0x20 ≤ token.getD 0 0 ∧ token.getD 0 0 ≠ 0x7f then .actInsertChar
  else
    match token.getD 0 0 with
    | 0x01 => .actBeginningOfLine
    | 0x02 => .actBackwardChar
    | 0x03 => .actSIGINT
    | 0x04 => .actAccept
    | 0x05 => .actEndOfLine
    | 0x06 => .actForwardChar
    | 0x08 => .actDeleteBackwardChar
    | 0x09 => .actInsertChar
    | 0x0a => .actAccept
    | 0x0b => .actKillLine
    | 0x0c => .actRefresh
    | 0x0d => .actAccept
    | 0x15 => .actKillWholeLine
    | 0x16 => .actQuotedInsert
    | 0x1b =>
      if token = [0x1b, 0x5b, 0x43] ∨ token = [0x1b, 0x4f, 0x43] then
        .actForwardChar
      else if token = [0x1b, 0x5b, 0x44] ∨ token = [0x1b, 0x4f, 0x44] then
        .actBackwardChar
      else if token = [0x1b, 0x5b, 0x31, 0x7e] ∨ token = [0x1b, 0x5b, 0x37, 0x7e] ∨
          token = [0x1b, 0x5b, 0x48] ∨ token = [0x1b, 0x4f, 0x48] then
        .actBeginningOfLine
      else if token = [0x1b, 0x5b, 0x34, 0x7e] ∨ token = [0x1b, 0x5b, 0x38, 0x7e] ∨
          token = [0x1b, 0x5b, 0x46] ∨ token = [0x1b, 0x4f, 0x46] then
        .actEndOfLine
      else if token = [0x1b, 0x5b, 0x33, 0x7e] then .actDeleteForwardChar
      else if token = [0x1b, 0x4f, 0x4d] then .actAccept
      else if token = [0x1b, 0x5b, 0x32, 0x30, 0x30, 0x7e] then .actPasteStart
      else .actIgnore
    | 0x1c => .actSIGQUIT
    | 0x7f => .actDeleteBackwardChar
    | _ => .actIgnore

/-- Go `utf8.RuneStart`: `b & 0xC0 != 0x80`. -/
def runeStart (b : Nat) : Bool := ¬ (b &&& 0xc0 = 0x80)

/-- The `start` index computed by Go's `utf8.DecodeLastRune`: scan back
from the penultimate byte, at most to `len - 4`, for a non-continuation
byte; on failure Go ends at `lim - 1` clamped to 0 (the loop is unrolled
here: it runs at most three times). -/
def lastStart (p : List Nat) : Nat :=
  if 2 ≤ p.length ∧ runeStart (p.getD (p.length - 2) 0) then p.length - 2
  else if 3 ≤ p.length ∧ runeStart (p.getD (p.length - 3) 0) then p.length - 3
  else if 4 ≤ p.length ∧ runeStart (p.getD (p.length - 4) 0) then p.length - 4
  else if 5 ≤ p.length then p.length - 5
  else 0

/-- The size component of Go's `utf8.DecodeLastRune`. -/
def utf8DecodeLastSize (p : List Nat) : Nat :=
  if p.length = 0 then 0
  else if p.getD (p.length - 1) 0 < 0x80 then 1
  else
    if lastStart p + utf8DecodeSize (p.drop (lastStart p)) = p.length then
      utf8DecodeSize (p.drop (lastStart p))
    else 1

/-- Hex digit value (`strconv` base-16 digits, both cases). -/
def hexVal (b : Nat) : Option Nat :=
  if 0x30 ≤ b ∧ b ≤ 0x39 then some (b - 0x30)
  else if 0x61 ≤ b ∧ b ≤ 0x66 then some (b - 0x61 + 10)
  else if 0x41 ≤ b ∧ b ≤ 0x46 then some (b - 0x41 + 10)
  else none

/-- `strconv.ParseUint(s, 16, 32)` on a byte string: `none` on empty input,
a non-hex byte, or a value outside 32 bits. -/
def parseHexU32 : List Nat → Nat → Option Nat
  | [], acc => some acc
  | d :: rest, acc =>
    match hexVal d with
    | none => none
    | some v => if acc * 16 + v < 2 ^ 32 then parseHexU32 rest (acc * 16 + v)
                else none

def parseHex (l : List Nat) : Option Nat :=
  if l = [] then none else parseHexU32 l 0

/-- Go `utf8.AppendRune(nil, rune(cp))` with `i = uint32(rune(cp))`:
surrogates and values above `MaxRune` encode `U+FFFD`. -/
def utf8EncodeRune (i : Nat) : List Nat :=
  if i < 0x80 then [i]
  else if i ≤ 0x7ff then [0xc0 + i / 64, 0x80 + i % 64]
  else if 0x10ffff < i ∨ (0xd800 ≤ i ∧ i ≤ 0xdfff) then [0xef, 0xbf, 0xbd]
  else if i ≤ 0xffff then [0xe0 + i / 4096, 0x80 + i / 64 % 64, 0x80 + i % 64]
  else [0xf0 + i / 262144, 0x80 + i / 4096 % 64, 0x80 + i / 64 % 64,
    0x80 + i % 64]

/-- The token replacement done by the `actQuotedInsert` arm of `readLine`
when the token carries hex digits: parse failure keeps `token[1:]`, `^Vx`
yields one raw byte, `^Vu`/`^VU` the UTF-8 encoding of the code point. -/
def quotedInsertBytes (token : List Nat) : List Nat :=
  match parseHex (token.drop 2) with
  | none => token.drop 1
  | some cp => if token.getD 1 0 = 0x78 then [cp % 256] else utf8EncodeRune cp

/-- The editor state of `readLine`: the byte buffer, the caret (`cursor`)
and the bracketed-paste flag. -/
structure EditorState where
  buffer : List Nat
  cursor : Nat
  inPaste : Bool
deriving DecidableEq, Repr

/-- `slices.Insert(buffer, cursor, token...)` followed by
`cursor += len(token)`. -/
def insertTok (st : EditorState) (tok : List Nat) : EditorState :=
  ⟨st.buffer.take st.cursor ++ tok ++ st.buffer.drop st.cursor,
    st.cursor + tok.length, st.inPaste⟩

/-- The state mutation of one `readLine` loop iteration for the
non-terminating, non-lookahead actions.  `actAccept`/`actSIGINT`/
`actSIGQUIT` end the loop and `actQuotedInsert` may consume the next
token; both are handled by the loop itself. -/
def applyAction (st : EditorState) (act : Action) (token : List Nat) :
    EditorState :=
  match act with
  | .actBeginningOfLine =>
    if 0 < st.cursor then { st with cursor := 0 } else st
  | .actEndOfLine =>
    if st.cursor < st.buffer.length then
      { st with cursor := st.buffer.length }
    else st
  | .actBackwardChar =>
    if 0 < st.cursor then
      { st with cursor := st.cursor - utf8DecodeLastSize (st.buffer.take st.cursor) }
    else st
  | .actForwardChar =>
    if st.cursor < st.buffer.length then
      { st with cursor := st.cursor + utf8DecodeSize (st.buffer.drop st.cursor) }
    else st
  | .actDeleteBackwardChar =>
    if 0 < st.cursor then
      { st with
        buffer := st.buffer.take
            (st.cursor - utf8DecodeLastSize (st.buffer.take st.cursor)) ++
          st.buffer.drop st.cursor,
        cursor := st.cursor - utf8DecodeLastSize (st.buffer.take st.cursor) }
    else st
  | .actDeleteForwardChar =>
    if st.cursor < st.buffer.length then
      { st with buffer := st.buffer.take st.cursor ++
          st.buffer.drop (st.cursor + utf8DecodeSize (st.buffer.drop st.cursor)) }
    else st
  | .actKillLine => { st with buffer := st.buffer.take st.cursor }
  | .actKillWholeLine => { st with buffer := [], cursor := 0 }
  | .actPasteStart => { st with inPaste := true }
  | .actPasteEnd => { st with inPaste := false }
  | .actInsertChar => insertTok st token
  | _ => st

/-- Signal errors returned by `readLine`. -/
inductive PromptErr where
  | sigint
  | sigquit
deriving DecidableEq, Repr

/-- The `readLine` main loop over an already-scanned token stream:
`Accept` returns the buffer, `^C`/`^\` return signal errors, a bare `^V`
takes the next token verbatim, and scanner exhaustion returns the
buffer. -/
def readLineLoop : List (List Nat) → EditorState → Except PromptErr (List Nat)
  | [], st => .ok st.buffer
  | token :: rest, st =>
    match tokenToAction token st.inPaste with
    | .actAccept => .ok st.buffer
    | .actSIGINT => .error .sigint
    | .actSIGQUIT => .error .sigquit
    | .actQuotedInsert =>
      if 1 < token.length then
        readLineLoop rest (insertTok st (quotedInsertBytes token))
      else
        match rest with
        | [] => .ok (insertTok st token).buffer
        | next :: rest2 => readLineLoop rest2 (insertTok st next)
    | act => readLineLoop rest (applyAction st act token)

/-- The successive editor states of a `readLine` session (one state per
processed token): the same dispatch as `readLineLoop`, written with
equality tests on the (decidable) action enum, collecting the state after
each processed token instead of the final result. -/
def editorTrace : List (List Nat) → EditorState → List EditorState
  | [], _ => []
  | token :: rest, st =>
    if tokenToAction token st.inPaste = .actAccept ∨
        tokenToAction token st.inPaste = .actSIGINT ∨
        tokenToAction token st.inPaste = .actSIGQUIT then []
    else if tokenToAction token st.inPaste = .actQuotedInsert then
      if 1 < token.length then
        insertTok st (quotedInsertBytes token) ::
          editorTrace rest (insertTok st (quotedInsertBytes token))
      else
        match rest with
        | [] => [insertTok st token]
        | next :: rest2 =>
          insertTok st next :: editorTrace rest2 (insertTok st next)
    else
      applyAction st (tokenToAction token st.inPaste) token ::
        editorTrace rest (applyAction st (tokenToAction token st.inPaste) token)

theorem insertTok_inv (st : EditorState) (tok : List Nat)
    (h : st.cursor ≤ st.buffer.length) :
    (insertTok st tok).cursor ≤ (insertTok st tok).buffer.length := by
  simp only [insertTok, List.length_append, List.length_take, List.length_drop]
  omega

theorem applyAction_inv (st : EditorState) (act : Action) (token : List Nat)
    (h : st.cursor ≤ st.buffer.length) :
    (applyAction st act token).cursor ≤
      (applyAction st act token).buffer.length := by
  have hfwd := utf8DecodeSize_le (st.buffer.drop st.cursor)
  rw [List.length_drop] at hfwd
  cases act <;> simp only [applyAction] <;> try split_ifs
  all_goals
    first
      | exact h
      | exact insertTok_inv st token h
      | (simp only [List.length_append, List.length_take, List.length_drop,
          List.length_nil]
         omega)

theorem editorTrace_inv_fuel (n : Nat) :
    ∀ (tokens : List (List Nat)) (st : EditorState), tokens.length ≤ n →
      st.cursor ≤ st.buffer.length →
      ∀ s ∈ editorTrace tokens st, s.cursor ≤ s.buffer.length := by
  induction n with
  | zero =>
    intro tokens st hlen hinv s hs
    have h0 : tokens = [] := List.length_eq_zero.mp (by omega)
    subst h0
    simp [editorTrace] at hs
  | succ n ih =>
    intro tokens st hlen hinv s hs
    cases tokens with
    | nil => simp [editorTrace] at hs
    | cons token rest =>
      cases rest with
      | nil =>
        rw [editorTrace] at hs
        split at hs
        · simp at hs
        · split at hs
          · split at hs
            · rcases List.mem_cons.mp hs with h | h
              · rw [h]; exact insertTok_inv _ _ hinv
              · simp [editorTrace] at h
            · rcases List.mem_singleton.mp hs with h
              rw [h]; exact insertTok_inv _ _ hinv
          · rcases List.mem_cons.mp hs with h | h
            · rw [h]; exact applyAction_inv _ _ _ hinv
            · simp [editorTrace] at h
      | cons next rest2 =>
        have hr1 : (next :: rest2).length ≤ n := by
          simp only [List.length_cons] at hlen ⊢; omega
        have hr2 : rest2.length ≤ n := by
          simp only [List.length_cons] at hlen; omega
        rw [editorTrace] at hs
        split at hs
        · simp at hs
        · split at hs
          · split at hs
            · rcases List.mem_cons.mp hs with h | h
              · rw [h]; exact insertTok_inv _ _ hinv
              · exact ih _ _ hr1 (insertTok_inv _ _ hinv) s h
            · rcases List.mem_cons.mp hs with h | h
              · rw [h]; exact insertTok_inv _ _ hinv
              · exact ih _ _ hr2 (insertTok_inv _ _ hinv) s h
          · rcases List.mem_cons.mp hs with h | h
            · rw [h]; exact applyAction_inv _ _ _ hinv
            · exact ih _ _ hr1 (applyAction_inv _ _ _ hinv) s h

/-- C8: the caret invariant `0 ≤ cursor ≤ len(buffer)`.  Every editor
action preserves it (`applyAction` covers insert, delete, navigation,
kill, paste toggling and refresh; `insertTok` is the insertion used by the
quoted-insert lookahead), and along any `readLine` session started on the
empty buffer every intermediate state satisfies it. -/
theorem caret_invariant :
    (∀ (st : EditorState) (act : Action) (token : List Nat),
      st.cursor ≤ st.buffer.length →
      0 ≤ (applyAction st act token).cursor ∧
      (applyAction st act token).cursor ≤
        (applyAction st act token).buffer.length) ∧
    (∀ (st : EditorState) (tok : List Nat),
      st.cursor ≤ st.buffer.length →
      0 ≤ (insertTok st tok).cursor ∧
      (insertTok st tok).cursor ≤ (insertTok st tok).buffer.length) ∧
    (∀ tokens : List (List Nat), ∀ s ∈ editorTrace tokens ⟨[], 0, false⟩,
      0 ≤ s.cursor ∧ s.cursor ≤ s.buffer.length) :=
  ⟨fun st act token h => ⟨Nat.zero_le _, applyAction_inv st act token h⟩,
   fun st tok h => ⟨Nat.zero_le _, insertTok_inv st tok h⟩,
   fun tokens s hs => ⟨Nat.zero_le _,
     editorTrace_inv_fuel tokens.length tokens ⟨[], 0, false⟩ (Nat.le_refl _)
       (Nat.zero_le _) s hs⟩⟩

theorem readLineLoop_cons (token : List Nat) (rest : List (List Nat))
    (st : EditorState) :
    readLineLoop (token :: rest) st =
      match tokenToAction token st.inPaste with
      | .actAccept => .ok st.buffer
      | .actSIGINT => .error .sigint
      | .actSIGQUIT => .error .sigquit
      | .actQuotedInsert =>
        if 1 < token.length then
          readLineLoop rest (insertTok st (quotedInsertBytes token))
        else
          match rest with
          | [] => .ok (insertTok st token).buffer
          | next :: rest2 => readLineLoop rest2 (insertTok st next)
      | act => readLineLoop rest (applyAction st act token) := by
  cases rest with
  | nil =>
    cases hact : tokenToAction token st.inPaste <;>
      simp only [readLineLoop, hact]
  | cons next rest2 =>
    cases hact : tokenToAction token st.inPaste <;>
      simp only [readLineLoop, hact]

theorem applyAction_inPaste_nav (st : EditorState) (token : List Nat)
    (act : Action)
    (h : act = .actInsertChar ∨ act = .actBackwardChar ∨
      act = .actForwardChar ∨ act = .actEndOfLine) :
    (applyAction st act token).inPaste = st.inPaste := by
  rcases h with h | h | h | h <;> subst h <;>
    (simp only [applyAction, insertTok]; try split_ifs) <;> rfl

theorem applyAction_buffer_nav (st : EditorState) (token : List Nat)
    (act : Action)
    (h : act = .actBackwardChar ∨ act = .actForwardChar ∨
      act = .actEndOfLine) :
    (applyAction st act token).buffer = st.buffer := by
  rcases h with h | h | h <;> subst h <;>
    (simp only [applyAction]; try split_ifs) <;> rfl

/-- The caret is at the end of the buffer whenever an `InsertChar` token is
about to be processed, along the run of the editor over `ts`. -/
def insAtEndB : EditorState → List (List Nat) → Bool
  | _, [] => true
  | st, t :: rest =>
    ((tokenToAction t st.inPaste != Action.actInsertChar) ||
      (st.cursor == st.buffer.length)) &&
    insAtEndB (applyAction st (tokenToAction t st.inPaste) t) rest

theorem readLine_insert_order_aux (ts : List (List Nat)) :
    ∀ st : EditorState, st.inPaste = false →
    (∀ t ∈ ts, tokenToAction t false = .actInsertChar ∨
      tokenToAction t false = .actBackwardChar ∨
      tokenToAction t false = .actForwardChar) →
    insAtEndB st ts = true →
    ∀ tE tA : List Nat, tokenToAction tE false = .actEndOfLine →
      tokenToAction tA false = .actAccept →
    readLineLoop (ts ++ [tE, tA]) st =
      .ok (st.buffer ++ (ts.filter
        (fun t => tokenToAction t false == Action.actInsertChar)).flatten) := by
  induction ts with
  | nil =>
    intro st hp _ _ tE tA hE hA
    have hactE : tokenToAction tE st.inPaste = .actEndOfLine := by
      rw [hp]; exact hE
    rw [List.nil_append]
    rw [readLineLoop_cons]
    simp only [hactE]
    have hp2 : (applyAction st .actEndOfLine tE).inPaste = false := by
      rw [applyAction_inPaste_nav st tE _ (by simp), hp]
    have hactA : tokenToAction tA (applyAction st .actEndOfLine tE).inPaste =
        .actAccept := by rw [hp2]; exact hA
    rw [readLineLoop_cons]
    simp only [hactA]
    rw [applyAction_buffer_nav st tE _ (by simp)]
    simp
  | cons t rest ih =>
    intro st hp hkinds hend tE tA hE hA
    have hk := hkinds t (List.mem_cons_self _ _)
    have hkr : ∀ x ∈ rest, tokenToAction x false = .actInsertChar ∨
        tokenToAction x false = .actBackwardChar ∨
        tokenToAction x false = .actForwardChar :=
      fun x hx => hkinds x (List.mem_cons_of_mem _ hx)
    rw [insAtEndB, Bool.and_eq_true] at hend
    obtain ⟨hcond, hrest⟩ := hend
    rw [List.cons_append, readLineLoop_cons]
    rcases hk with h | h | h
    · -- InsertChar: the caret is at the end, the token is appended
      have hact : tokenToAction t st.inPaste = .actInsertChar := by
        rw [hp]; exact h
      have hcur : st.cursor = st.buffer.length := by
        rw [hact] at hcond
        simpa using hcond
      simp only [hact]
      rw [hact] at hrest
      have hstep : applyAction st .actInsertChar t = insertTok st t := rfl
      rw [hstep] at hrest
      have hbuf : (insertTok st t).buffer = st.buffer ++ t := by
        simp [insertTok, hcur, List.take_length, List.drop_length]
      have hp2 : (insertTok st t).inPaste = false := by
        simp [insertTok, hp]
      rw [show applyAction st Action.actInsertChar t = insertTok st t from rfl,
        ih (insertTok st t) hp2 hkr hrest tE tA hE hA, hbuf]
      simp [List.filter_cons, h, List.append_assoc]
    · -- BackwardChar: buffer unchanged
      have hact : tokenToAction t st.inPaste = .actBackwardChar := by
        rw [hp]; exact h
      simp only [hact]
      rw [hact] at hrest
      have hp2 : (applyAction st .actBackwardChar t).inPaste = false := by
        rw [applyAction_inPaste_nav st t _ (by simp), hp]
      rw [ih _ hp2 hkr hrest tE tA hE hA,
        applyAction_buffer_nav st t _ (by simp)]
      simp [List.filter_cons, h]
    · -- ForwardChar: buffer unchanged
      have hact : tokenToAction t st.inPaste = .actForwardChar := by
        rw [hp]; exact h
      simp only [hact]
      rw [hact] at hrest
      have hp2 : (applyAction st .actForwardChar t).inPaste = false := by
        rw [applyAction_inPaste_nav st t _ (by simp), hp]
      rw [ih _ hp2 hkr hrest tE tA hE hA,
        applyAction_buffer_nav st t _ (by simp)]
      simp [List.filter_cons, h]

/-- C7 counterexample: inserting `a`, moving the caret left, then
inserting `b` yields `ba`, not the insertion-order concatenation `ab`:
`readLine` inserts at the caret, so an interleaved `BackwardChar` changes
the insertion point. -/
theorem readLine_insert_order_counterexample :
    readLineLoop [[0x61], [0x02], [0x62], [0x05], [0x0a]] ⟨[], 0, false⟩ =
      .ok [0x62, 0x61] ∧
    readLineLoop [[0x61], [0x02], [0x62], [0x05], [0x0a]] ⟨[], 0, false⟩ ≠
      .ok [0x61, 0x62] := by
  constructor
  · rfl
  · intro h
    rw [show readLineLoop [[0x61], [0x02], [0x62], [0x05], [0x0a]]
        ⟨[], 0, false⟩ = .ok [0x62, 0x61] from rfl] at h
    simp at h

/-- C7 (amended): starting from an empty buffer, an interleaving of
`InsertChar(c_i)` tokens with `BackwardChar`/`ForwardChar` tokens followed
by `EndOfLine` and `Accept` returns the concatenation `c_0 c_1 …` in
insertion order, provided the caret is at the end of the buffer whenever
an `InsertChar` token is processed (as when backward moves are balanced by
forward moves before the next insertion). -/
theorem readLine_insert_order (ts : List (List Nat)) (tE tA : List Nat)
    (hkinds : ∀ t ∈ ts, tokenToAction t false = .actInsertChar ∨
      tokenToAction t false = .actBackwardChar ∨
      tokenToAction t false = .actForwardChar)
    (hend : insAtEndB ⟨[], 0, false⟩ ts = true)
    (hE : tokenToAction tE false = .actEndOfLine)
    (hA : tokenToAction tA false = .actAccept) :
    readLineLoop (ts ++ [tE, tA]) ⟨[], 0, false⟩ =
      .ok ((ts.filter
        (fun t => tokenToAction t false == Action.actInsertChar)).flatten) := by
  have := readLine_insert_order_aux ts ⟨[], 0, false⟩ rfl hkinds hend tE tA hE hA
  simpa using this

/-- Witness for C7: insert `a`, move left, move right, insert `b`; the
result is `ab`. -/
theorem readLine_insert_order_witness :
    readLineLoop ([[0x61], [0x02], [0x06], [0x62]] ++ [[0x05], [0x0a]])
      ⟨[], 0, false⟩ = .ok [0x61, 0x62] := by
  have := readLine_insert_order [[0x61], [0x02], [0x06], [0x62]] [0x05] [0x0a]
    (by decide) (by decide) (by decide) (by decide)
  simpa using this

/-- Witness for C8: a concrete session (insert, backward, delete
forward). -/
theorem caret_invariant_witness :
    0 ≤ (Prompt.EditorState.mk [0x61, 0x62] 2 false).cursor ∧
    (Prompt.EditorState.mk [0x61, 0x62] 2 false).cursor ≤
      (Prompt.EditorState.mk [0x61, 0x62] 2 false).buffer.length :=
  caret_invariant.2.2 [[0x61], [0x62]] ⟨[0x61, 0x62], 2, false⟩ (by decide)

end Prompt

namespace Cli

/-!
The `-m`/`--memory` branch of `Options.Option` in `cmd/goenc/main.go`.
Option values are modelled as `List Char`.
-/

/-- `strconv.ParseUint` errors: `ErrSyntax` / `ErrRange`. -/
inductive NumErr where
  | badDigit
  | rangeErr
deriving DecidableEq, Repr

/-- Numeric value of a decimal digit string. -/
def digitsVal (s : List Char) : Nat :=
  s.foldl (fun acc c => acc * 10 + (c.toNat - 48)) 0

/-- `strconv.ParseUint(s, 10, bitSize)`: empty or non-digit input is a
syntax error; a value outside `bitSize` bits is a range error. -/
def parseUint (s : List Char) (bitSize : Nat) : Except NumErr Nat :=
  if s = [] then .error .badDigit
  else if ¬ s.all (fun c => c.isDigit) then .error .badDigit
  else if digitsVal s < 2 ^ bitSize then .ok (digitsVal s)
  else .error .rangeErr

/-- The `-m`/`--memory` case of `Options.Option`: strip an optional
`K`/`M`/`G` suffix, pick the unit (1, 2^10, 2^20) and the admissible bit
width (32, 22, 12), parse, reject zero, and store `uint32(n * unit)`
(the stored value is reduced mod 2^32, as the Go conversion would). -/
def memOption (value : List Char) : Except NumErr Nat :=
  let stripped :=
    if value.getLast? = some 'K' then (value.dropLast, 1, 32)
    else if value.getLast? = some 'M' then (value.dropLast, 2 ^ 10, 32 - 10)
    else if value.getLast? = some 'G' then (value.dropLast, 2 ^ 20, 32 - 20)
    else (value, 1, 32)
  match parseUint stripped.1 stripped.2.2 with
  | .error e => .error e
  | .ok n =>
    if n = 0 then .error .rangeErr
    else .ok ((n * stripped.2.1) % 2 ^ 32)

theorem memOption_core (d : List Char) (unit width : Nat)
    (hd : d ≠ []) (hdig : ∀ c ∈ d, c.isDigit = true)
    (huw : 2 ^ width * unit = 2 ^ 32) (hu : 0 < unit) :
    (match parseUint d width with
      | .error e => Except.error e
      | .ok n => if n = 0 then .error .rangeErr
                 else .ok ((n * unit) % 2 ^ 32)) =
    (if digitsVal d * unit = 0 ∨ 2 ^ 32 ≤ digitsVal d * unit then
       Except.error NumErr.rangeErr
     else .ok (digitsVal d * unit)) := by
  rw [parseUint, if_neg (by simpa using hd),
    if_neg (by simp only [not_not, List.all_eq_true]; exact hdig)]
  by_cases hlt : digitsVal d < 2 ^ width
  · rw [if_pos hlt]
    simp only
    have hprod : digitsVal d * unit < 2 ^ 32 := by
      rw [← huw]
      exact Nat.mul_lt_mul_of_lt_of_le hlt (Nat.le_refl unit) hu
    by_cases hz : digitsVal d = 0
    · rw [if_pos hz, if_pos (Or.inl (by rw [hz, Nat.zero_mul]))]
    · rw [if_neg hz,
        if_neg (by
          push_neg
          exact ⟨Nat.mul_ne_zero hz (by omega), hprod⟩),
        Nat.mod_eq_of_lt hprod]
  · rw [if_neg hlt]
    simp only
    have hge : 2 ^ 32 ≤ digitsVal d * unit := by
      rw [← huw]
      exact Nat.mul_le_mul_right unit (by omega)
    rw [if_pos (Or.inr hge)]

/-- C9: for a `-m`/`--memory` value of decimal digits with an optional
`K`/`M`/`G` suffix, parsing multiplies the number by 1, 1024 or 1024^2 and
stores the product; a zero product or one that does not fit an unsigned
32-bit value is rejected with a range error, so the stored 32-bit memory
field never wraps around. -/
theorem memory_option_no_wrap (d suf : List Char)
    (hd : d ≠ []) (hdig : ∀ c ∈ d, c.isDigit = true)
    (hsuf : suf = [] ∨ suf = ['K'] ∨ suf = ['M'] ∨ suf = ['G']) :
    memOption (d ++ suf) =
      (if digitsVal d * (if suf = ['M'] then 2 ^ 10 else
          if suf = ['G'] then 2 ^ 20 else 1) = 0 ∨
          2 ^ 32 ≤ digitsVal d * (if suf = ['M'] then 2 ^ 10 else
            if suf = ['G'] then 2 ^ 20 else 1) then
        .error .rangeErr
      else .ok (digitsVal d * (if suf = ['M'] then 2 ^ 10 else
        if suf = ['G'] then 2 ^ 20 else 1))) := by
  have hlastd : ∀ c, d.getLast? = some c → c.isDigit = true :=
    fun c hc => hdig c (List.mem_of_getLast?_eq_some hc)
  rcases hsuf with h | h | h | h <;> subst h
  · have hK : ¬ d.getLast? = some 'K' := fun hc => by
      have := hlastd _ hc; simp at this
    have hM : ¬ d.getLast? = some 'M' := fun hc => by
      have := hlastd _ hc; simp at this
    have hG : ¬ d.getLast? = some 'G' := fun hc => by
      have := hlastd _ hc; simp at this
    rw [List.append_nil]
    rw [show memOption d = (match parseUint d 32 with
        | .error e => Except.error e
        | .ok n => if n = 0 then .error .rangeErr
                   else .ok ((n * 1) % 2 ^ 32)) from by
      simp only [memOption, if_neg hK, if_neg hM, if_neg hG]]
    rw [memOption_core d 1 32 hd hdig (by norm_num) (by norm_num)]
    simp
  · rw [show memOption (d ++ ['K']) = (match parseUint d 32 with
        | .error e => Except.error e
        | .ok n => if n = 0 then .error .rangeErr
                   else .ok ((n * 1) % 2 ^ 32)) from by
      simp only [memOption, List.getLast?_concat, List.dropLast_concat,
        if_pos rfl, if_true]]
    rw [memOption_core d 1 32 hd hdig (by norm_num) (by norm_num)]
    simp
  · rw [show memOption (d ++ ['M']) = (match parseUint d (32 - 10) with
        | .error e => Except.error e
        | .ok n => if n = 0 then .error .rangeErr
                   else .ok ((n * 2 ^ 10) % 2 ^ 32)) from by
      simp only [memOption, List.getLast?_concat, List.dropLast_concat,
        if_neg (by decide : ¬ (some 'M' = some 'K')), if_pos rfl, if_true]]
    rw [memOption_core d (2 ^ 10) (32 - 10) hd hdig (by norm_num) (by norm_num)]
    simp
  · rw [show memOption (d ++ ['G']) = (match parseUint d (32 - 20) with
        | .error e => Except.error e
        | .ok n => if n = 0 then .error .rangeErr
                   else .ok ((n * 2 ^ 20) % 2 ^ 32)) from by
      simp only [memOption, List.getLast?_concat, List.dropLast_concat,
        if_neg (by decide : ¬ (some 'G' = some 'K')),
        if_neg (by decide : ¬ (some 'G' = some 'M')), if_pos rfl, if_true]]
    rw [memOption_core d (2 ^ 20) (32 - 20) hd hdig (by norm_num) (by norm_num)]
    simp

/-- Witness for C9: `-m 64M` stores 65536 KiB; `-m 4194304M` (product
2^32) is a range error. -/
theorem memory_option_no_wrap_witness :
    memOption (['6', '4'] ++ ['M']) = .ok 65536 ∧
    memOption (['4', '1', '9', '4', '3', '0', '4'] ++ ['M']) =
      .error .rangeErr := by
  constructor
  · have := memory_option_no_wrap ['6', '4'] ['M'] (by decide) (by decide)
      (Or.inr (Or.inr (Or.inl rfl)))
    simpa using this
  · have := memory_option_no_wrap ['4', '1', '9', '4', '3', '0', '4'] ['M']
      (by decide) (by decide) (Or.inr (Or.inr (Or.inl rfl)))
    simpa using this

end Cli
